import Mathlib

/-!
# Verification of the HF parquet import pipeline

Shallow embedding of the ingestion pipeline of the `ai-toolkit` repository:
the reference parser, the remote fetcher with layered auth/repo-kind
fallback, the content validator (gunzip + parquet magic), the per-row
loop of the standalone importer script, and the collision-free
path allocator.  Network, filesystem, hashing and byte-sniffing effects
are modelled as explicit oracle parameters; string and buffer operations
are re-implemented over character/byte lists so that every definition
evaluates by kernel reduction.
-/

namespace AiToolkit

/-! ## Generic string helpers (JS built-in semantics over `List Char`) -/

/-- Prefix test on lists of characters. -/
def leadsWithList : List Char → List Char → Bool
  | [], _ => true
  | _ :: _, [] => false
  | a :: as, b :: bs => a == b && leadsWithList as bs

/-- JS `String.prototype.startsWith`. -/
def leadsWith (pre s : String) : Bool :=
  leadsWithList pre.toList s.toList

/-- JS `String.prototype.endsWith`. -/
def trailsWith (s suffix : String) : Bool :=
  leadsWithList suffix.toList.reverse s.toList.reverse

/-- JS `String.prototype.includes`: substring occurrence test. -/
def containsStr (s sub : String) : Bool :=
  (List.range (s.toList.length + 1)).any fun i => leadsWithList sub.toList (s.toList.drop i)

/-- JS `String.prototype.toLowerCase` (ASCII range, as used by the code). -/
def toLowerStr (s : String) : String :=
  String.mk (s.toList.map Char.toLower)

/-- JS `String.prototype.trim`. -/
def trimStr (s : String) : String :=
  String.mk (((s.toList.dropWhile Char.isWhitespace).reverse.dropWhile Char.isWhitespace).reverse)

/-- JS `String.prototype.slice(0, n)`. -/
def takeStr (n : Nat) (s : String) : String :=
  String.mk (s.toList.take n)

/-- Drop the first `n` characters of a string. -/
def dropStr (n : Nat) (s : String) : String :=
  String.mk (s.toList.drop n)

/-- JS `s.split(sep)` for a one-character separator, on character lists.
`[[]]` for the empty string, and empty pieces are kept, matching JS. -/
def splitListChar (sep : Char) : List Char → List (List Char)
  | [] => [[]]
  | c :: cs =>
    match splitListChar sep cs with
    | [] => [[c]]
    | h :: t => if c == sep then [] :: h :: t else (c :: h) :: t

/-- JS `s.split(sep)` for a one-character separator. -/
def splitStr (sep : Char) (s : String) : List String :=
  (splitListChar sep s.toList).map String.mk

/-- JS `array.join(sep)` / `path` joining of segments. -/
def joinWith (sep : String) : List String → String
  | [] => ""
  | [x] => x
  | x :: xs => x ++ sep ++ joinWith sep xs

/-- JS `String.prototype.includes` specialised to a single character. -/
def containsChar (s : String) (c : Char) : Bool :=
  s.toList.contains c

/-! ## Parquet magic check

Embeds `isParquetBuffer` (`ImportParquetModal.tsx`) and the identical
`isParquet` of `verify-hf-parquet-download.mjs`.  Buffers are lists of
byte values. -/

/-- The 4 ASCII bytes of the parquet marker `PAR1`. -/
def PAR1 : List Nat := [80, 65, 82, 49]

/-- Node `buf.toString('ascii')` as a list of code points: the decoder
unsets the highest bit of each byte before decoding as latin1, so each
byte `b` decodes to the code point `b % 128`. -/
def asciiDecode (bytes : List Nat) : List Nat :=
  bytes.map fun b => b % 128

/-- `isParquetBuffer(buf)`: anything shorter than 8 bytes is rejected,
otherwise the first and last 4 bytes must decode (via `toString('ascii')`,
which clears bit 7) to `PAR1`. -/
def isParquetBuffer (buf : List Nat) : Bool :=
  if buf.length < 8 then false
  else (asciiDecode (buf.take 4) == PAR1) && (asciiDecode (buf.drop (buf.length - 4)) == PAR1)

/-! ## Reference parser

Embeds `parseHFParquetPath` (`ImportParquetModal.tsx`).  The input is
trimmed, a known huggingface.co host prefix is stripped, the remainder is
split on `/` dropping empty segments, and the segment list is parsed. -/

/-- The repo namespace of a reference (`HFRepoType` in the source). -/
inductive HFRepoType
  | auto
  | datasets
  | models
deriving DecidableEq, Repr

/-- A structured remote reference (`HFParquetRef` in the source). -/
structure HFParquetRef where
  repoId : String
  revision : String
  filePath : String
  repoType : HFRepoType
deriving DecidableEq, Repr

/-- The regex `^https?:\/\/(www\.)?huggingface\.co\//` replacement: strip
the known host prefix when present. -/
def stripHFHost (s : String) : String :=
  if leadsWith "https://www.huggingface.co/" s then dropStr 27 s
  else if leadsWith "http://www.huggingface.co/" s then dropStr 26 s
  else if leadsWith "https://huggingface.co/" s then dropStr 23 s
  else if leadsWith "http://huggingface.co/" s then dropStr 22 s
  else s

/-- `input.split('/').filter(Boolean)` applied to the trimmed,
host-stripped input. -/
def hfParts (inputRaw : String) : List String :=
  (splitStr '/' (stripHFHost (trimStr inputRaw))).filter (fun p => p != "")

/-- Error text for too few path segments. -/
def invalidPathMsg : String :=
  "Invalid Hugging Face parquet path. Expected: org/repo/path/to/file.parquet"

/-- Error text for a malformed resolve/blob URL. -/
def invalidUrlMsg : String :=
  "Invalid Hugging Face parquet URL. Expected: .../(resolve|blob)/REVISION/path/to/file.parquet"

/-- Error text for a file path that is not a `.parquet` file. -/
def notParquetMsg : String :=
  "The Hugging Face file path must point to a .parquet file"

/-- The `org/repo@revision` handling of `parseHFParquetPath`: when the
repo segment contains `@`, split it, keeping the repo name (resp. the
revision) only when the split piece is non-empty. -/
def splitRepoRevision (rwm : String) : String × String :=
  if containsChar rwm '@' then
    let pieces := splitStr '@' rwm
    let repoName := pieces.getD 0 ""
    let rev := pieces.getD 1 ""
    (if repoName == "" then rwm else repoName, if rev == "" then "main" else rev)
  else (rwm, "main")

/-- Offset of the `org` segment: 1 when the first segment is the
reserved `datasets` keyword, else 0 (the variable `i` in the source). -/
def dsOffset (parts : List String) : Nat :=
  if parts.getD 0 "" == "datasets" then 1 else 0

/-- Whether a `resolve`/`blob` literal appears at the expected position
(`isResolveOrBlob` in the source). -/
def resolveBlobAt (parts : List String) : Bool :=
  parts.getD (dsOffset parts + 2) "" == "resolve" ||
    parts.getD (dsOffset parts + 2) "" == "blob"

/-- The body of `parseHFParquetPath` acting on the filtered segment
list: handles the `datasets` prefix, the `resolve`/`blob` URL shape, and
the bare `org/repo@rev?/path` shape. -/
def partsParse (parts : List String) : Except String HFParquetRef :=
  if parts.length < 3 then .error invalidPathMsg
  else
    let pinned := parts.getD 0 "" == "datasets"
    let i := dsOffset parts
    if resolveBlobAt parts then
      if parts.length < i + 5 then .error invalidUrlMsg
      else
        let org := parts.getD i ""
        let repo := parts.getD (i + 1) ""
        let revision := if parts.getD (i + 3) "" == "" then "main" else parts.getD (i + 3) ""
        let filePath := joinWith "/" (parts.drop (i + 4))
        if !(trailsWith (toLowerStr filePath) ".parquet") then .error notParquetMsg
        else
          .ok ⟨org ++ "/" ++ repo, revision, filePath,
               if pinned then .datasets else .models⟩
    else
      if parts.length < i + 3 then .error invalidPathMsg
      else
        let org := parts.getD i ""
        let rwm := parts.getD (i + 1) ""
        let repoRev := splitRepoRevision rwm
        let filePath := joinWith "/" (parts.drop (i + 2))
        if !(trailsWith (toLowerStr filePath) ".parquet") then .error notParquetMsg
        else
          .ok ⟨org ++ "/" ++ repoRev.1, repoRev.2, filePath,
               if pinned then .datasets else .auto⟩

/-- `parseHFParquetPath(inputRaw)`: parse a free-form reference string
into a structured `HFParquetRef`, or fail with the error message the
source throws. -/
def parseHFParquetPath (inputRaw : String) : Except String HFParquetRef :=
  partsParse (hfParts inputRaw)

/-! ## File writer: sanitisation and collision-free path allocation

Embeds `sanitizeFileName` and `uniquePath` (identical in
`import-hf-parquet.mjs` and `ImportParquetModal.tsx`).  The filesystem is
modelled by an existence oracle `ex : String → Bool` standing for
`fs.existsSync`. -/

/-- A character the sanitizer keeps: the class `[a-zA-Z0-9._-]`. -/
def isSafeFileChar (c : Char) : Bool :=
  c.isAlphanum || c == '.' || c == '_' || c == '-'

/-- `sanitizeFileName(fileName)`: replace every character outside the
safe class with `_`. -/
def sanitizeFileName (fileName : String) : String :=
  String.mk (fileName.toList.map fun c => if isSafeFileChar c then c else '_')

/-- `path.join(dir, name)` in the POSIX form the importer uses. -/
def pathJoin (dir name : String) : String := dir ++ "/" ++ name

/-- The suffixed candidate `dir/base_i.ext` tried at loop index `i`. -/
def suffixedCandidate (dir safeBase safeExt : String) (i : Nat) : String :=
  pathJoin dir (safeBase ++ "_" ++ toString i ++ safeExt)

/-- Error text when no unique name is found. -/
def noUniqueNameMsg : String := "Unable to find a unique filename after many attempts"

/-- The `for (let i = 1; i < 10_000; i++)` retry loop of `uniquePath`:
`i` is the current loop index and `fuel` the number of remaining
iterations before the 10000 bound (so the loop is entered with `i = 1`
and `fuel = 9999`). -/
def uniquePathLoop (ex : String → Bool) (dir safeBase safeExt : String) :
    Nat → Nat → Except String String
  | _, 0 => .error noUniqueNameMsg
  | i, fuel + 1 =>
    if ex (suffixedCandidate dir safeBase safeExt i) then
      uniquePathLoop ex dir safeBase safeExt (i + 1) fuel
    else .ok (suffixedCandidate dir safeBase safeExt i)

/-- `uniquePath(dir, baseName, extensionWithDot)`: sanitize both pieces,
return the unsuffixed path when it does not exist, otherwise run the
numeric-suffix retry loop from index 1 (9999 attempts). -/
def uniquePath (ex : String → Bool) (dir baseName extensionWithDot : String) :
    Except String String :=
  let safeBase := sanitizeFileName baseName
  let safeExt := sanitizeFileName
    (if leadsWith "." extensionWithDot then extensionWithDot else "." ++ extensionWithDot)
  let candidate := pathJoin dir (safeBase ++ safeExt)
  if ex candidate then uniquePathLoop ex dir safeBase safeExt 1 9999
  else .ok candidate

/-- Whether an `Except` value is a failure. -/
def isErrE {ε α : Type} : Except ε α → Bool
  | .error _ => true
  | .ok _ => false

/-! ## Remote fetcher

Embeds `downloadHFFile`, `tryWithFallbackAuth`, `tryFetch` and the token
sanitisation of `ImportParquetModal.tsx`, and the simpler
`tryFetch`/`tryRepoType` of `import-hf-parquet.mjs`.  The network is an
oracle `net : String → Bool → NetResponse` mapping a URL and the
presence of the Authorization header to the response.  A deterministic
oracle models the source faithfully because the code performs each
retry with `fetch` under identical inputs. -/

/-- The apostrophe character (used by token sanitisation and the URI
unreserved set). -/
def singleQuoteChar : Char := Char.ofNat 39

/-- An HTTP response as the code observes it: `res.ok`, `res.status`,
`res.statusText`, the body (as bytes for `arrayBuffer`, as text for
`text()`), `res.url`, and the three headers the code reads. -/
structure NetResponse where
  ok : Bool
  status : Nat
  statusText : String
  body : List Nat
  bodyText : String
  finalUrl : String
  contentType : Option String
  contentEncoding : Option String
  xErrorMessage : Option String
deriving Repr, DecidableEq

/-- `HFDownloadOk` of the source. -/
structure HFOk where
  buf : List Nat
  status : Nat
  statusText : String
  url : String
  finalUrl : String
  contentType : Option String
  contentEncoding : Option String
deriving Repr, DecidableEq

/-- `HFDownloadErr` of the source: status, url, the `x-error-message`
diagnostic header (empty when absent) and a 300-character body preview. -/
structure HFErr where
  status : Nat
  statusText : String
  url : String
  hfErrorMessage : String
  bodyPreview : String
deriving Repr, DecidableEq

/-- `HFDownloadAttempt = HFDownloadOk | HFDownloadErr`. -/
inductive HFDownloadAttempt
  | ok (o : HFOk)
  | err (e : HFErr)
deriving Repr, DecidableEq

/-- The `ok` discriminator (`isErrAttempt` negated). -/
def isOkAttempt : HFDownloadAttempt → Bool
  | .ok _ => true
  | .err _ => false

/-- `tryFetch(url, headers)`: perform one request and package the
response; `finalUrl` falls back to the requested URL when `res.url` is
empty, the diagnostic header defaults to the empty string, and the body
preview is truncated to 300 characters. -/
def tryFetch (net : String → Bool → NetResponse) (url : String) (auth : Bool) :
    HFDownloadAttempt :=
  let res := net url auth
  if res.ok then
    .ok ⟨res.body, res.status, res.statusText, url,
         if res.finalUrl == "" then url else res.finalUrl,
         res.contentType, res.contentEncoding⟩
  else
    .err ⟨res.status, res.statusText, url, res.xErrorMessage.getD "",
          takeStr 300 res.bodyText⟩

/-- `withDownloadQuery(url)`: append the forced-download query
parameter. -/
def withDownloadQuery (url : String) : String :=
  if containsChar url '?' then url ++ "&download=true" else url ++ "?download=true"

/-- `tryWithFallbackAuth(url)`: for each of the two candidates (the
canonical URL, then the forced-download variant), try authenticated
first when a token is present, retry the identical URL unauthenticated
on failure, and return the first success; on total failure re-fetch the
last candidate (authenticated when a token is present) and return that
attempt. -/
def tryWithFallbackAuth (net : String → Bool → NetResponse) (hasToken : Bool)
    (url : String) : HFDownloadAttempt :=
  let c1 := url
  let c2 := withDownloadQuery url
  if hasToken then
    let a1 := tryFetch net c1 true
    if isOkAttempt a1 then a1
    else
      let a2 := tryFetch net c1 false
      if isOkAttempt a2 then a2
      else
        let a3 := tryFetch net c2 true
        if isOkAttempt a3 then a3
        else
          let a4 := tryFetch net c2 false
          if isOkAttempt a4 then a4
          else tryFetch net c2 true
  else
    let b1 := tryFetch net c1 false
    if isOkAttempt b1 then b1
    else
      let b2 := tryFetch net c2 false
      if isOkAttempt b2 then b2
      else tryFetch net c2 false

/-- The ordered list of `(url, auth)` requests `tryWithFallbackAuth`
performs, mirroring its control flow request by request. -/
def fallbackAuthTrace (net : String → Bool → NetResponse) (hasToken : Bool)
    (url : String) : List (String × Bool) :=
  let c1 := url
  let c2 := withDownloadQuery url
  if hasToken then
    (c1, true) :: (if isOkAttempt (tryFetch net c1 true) then []
      else (c1, false) :: (if isOkAttempt (tryFetch net c1 false) then []
        else (c2, true) :: (if isOkAttempt (tryFetch net c2 true) then []
          else (c2, false) :: (if isOkAttempt (tryFetch net c2 false) then []
            else [(c2, true)]))))
  else
    (c1, false) :: (if isOkAttempt (tryFetch net c1 false) then []
      else (c2, false) :: (if isOkAttempt (tryFetch net c2 false) then []
        else [(c2, false)]))

/-- The `/^Bearer\s+/i` strip of the token sanitiser. -/
def stripBearer (s : String) : String :=
  let cs := s.toList
  if (cs.take 6).map Char.toLower == "bearer".toList then
    let rest := cs.drop 6
    if (rest.takeWhile Char.isWhitespace).length > 0 then
      String.mk (rest.dropWhile Char.isWhitespace)
    else s
  else s

/-- The `/^"(.+)"$/` (resp. single-quote) strip of the token sanitiser;
`.` does not match line terminators. -/
def stripWrappingQuote (q : Char) (s : String) : String :=
  let cs := s.toList
  if 3 ≤ cs.length && cs.getD 0 ' ' == q && cs.getLastD ' ' == q
      && (cs.drop 1).dropLast.all (fun c => !(c == Char.ofNat 10 || c == Char.ofNat 13)) then
    String.mk (cs.drop 1).dropLast
  else s

/-- `.split(/\s+/)[0]` after a trim: the leading whitespace-free run. -/
def firstTok (s : String) : String :=
  String.mk (s.toList.takeWhile fun c => !c.isWhitespace)

/-- The token sanitisation of `downloadHFFile`: trim, strip a redundant
`Bearer` prefix, strip wrapping double then single quotes, and keep the
first whitespace-separated piece. -/
def sanitizeToken (token : String) : String :=
  firstTok (stripWrappingQuote singleQuoteChar
    (stripWrappingQuote '"' (stripBearer (trimStr token))))

/-- Upper-case hex digit of a value below 16 (as `encodeURIComponent`
produces). -/
def hexDigitChar (n : Nat) : Char :=
  if n < 10 then Char.ofNat (48 + n) else Char.ofNat (55 + n)

/-- The characters `encodeURIComponent` leaves unescaped. -/
def isUnreservedURIChar (c : Char) : Bool :=
  c.isAlphanum || c == '-' || c == '_' || c == '.' || c == '!' || c == '~' ||
    c == '*' || c == singleQuoteChar || c == '(' || c == ')'

/-- UTF-8 bytes of a code point. -/
def utf8BytesOfCode (n : Nat) : List Nat :=
  if n < 128 then [n]
  else if n < 2048 then [192 + n / 64, 128 + n % 64]
  else if n < 65536 then [224 + n / 4096, 128 + n / 64 % 64, 128 + n % 64]
  else [240 + n / 262144, 128 + n / 4096 % 64, 128 + n / 64 % 64, 128 + n % 64]

/-- Percent-encoding of one character. -/
def percentEncodeChar (c : Char) : List Char :=
  (utf8BytesOfCode c.toNat).foldr
    (fun b acc => '%' :: hexDigitChar (b / 16) :: hexDigitChar (b % 16) :: acc) []

/-- JS `encodeURIComponent`. -/
def encodeURIComponent (s : String) : String :=
  String.mk (s.toList.foldr
    (fun c acc => (if isUnreservedURIChar c then [c] else percentEncodeChar c) ++ acc) [])

/-- `encodeHFPath(p)`: encode each non-empty `/`-separated segment. -/
def encodeHFPath (p : String) : String :=
  joinWith "/" (((splitStr '/' p).filter (fun seg => seg != "")).map encodeURIComponent)

/-- `buildUrl(type)` of `downloadHFFile` (tsx variant, canonical URL
without the download query). -/
def buildHFUrl (repoId rev fp : String) (isDatasets : Bool) : String :=
  if isDatasets then
    "https://huggingface.co/datasets/" ++ repoId ++ "/resolve/" ++ rev ++ "/" ++ fp
  else
    "https://huggingface.co/" ++ repoId ++ "/resolve/" ++ rev ++ "/" ++ fp

/-- `downloadHFFile(repoId, revision, filePath, repoType)`: sanitize the
token, build the candidate URL per concrete repo kind (datasets first,
then models, under `auto`), and run the auth fallback.  The error value
is the list of failed attempts whose URL, status, diagnostic header and
body preview the thrown message interpolates (one attempt for a concrete
kind, the datasets and models attempts under `auto`); the hint text
around them is determined by these attempts and is not modelled
separately. -/
def downloadHFFile (net : String → Bool → NetResponse)
    (rawToken repoId revision filePath : String) (repoType : HFRepoType) :
    Except (List HFDownloadAttempt) HFOk :=
  let token := sanitizeToken rawToken
  let hasToken := token != ""
  let rev := encodeURIComponent (if revision == "" then "main" else revision)
  let fp := encodeHFPath filePath
  if repoType == .datasets || repoType == .models then
    match tryWithFallbackAuth net hasToken (buildHFUrl repoId rev fp (repoType == .datasets)) with
    | .ok o => .ok o
    | .err e => .error [.err e]
  else
    match tryWithFallbackAuth net hasToken (buildHFUrl repoId rev fp true) with
    | .ok o => .ok o
    | .err e1 =>
      match tryWithFallbackAuth net hasToken (buildHFUrl repoId rev fp false) with
      | .ok o => .ok o
      | .err e2 => .error [.err e1, .err e2]

/-- The ordered list of `(url, auth)` requests a `downloadHFFile` run
performs. -/
def downloadHFFileTrace (net : String → Bool → NetResponse)
    (rawToken repoId revision filePath : String) (repoType : HFRepoType) :
    List (String × Bool) :=
  let token := sanitizeToken rawToken
  let hasToken := token != ""
  let rev := encodeURIComponent (if revision == "" then "main" else revision)
  let fp := encodeHFPath filePath
  if repoType == .datasets || repoType == .models then
    fallbackAuthTrace net hasToken (buildHFUrl repoId rev fp (repoType == .datasets))
  else
    fallbackAuthTrace net hasToken (buildHFUrl repoId rev fp true) ++
      (if isOkAttempt (tryWithFallbackAuth net hasToken (buildHFUrl repoId rev fp true)) then []
       else fallbackAuthTrace net hasToken (buildHFUrl repoId rev fp false))

/-! ## Content validator

Embeds `maybeGunzip` and `downloadHFFileAsBuffer` (tsx variant).
`gunzip` is an oracle for `zlib.gunzipSync`; `none` models a throw. -/

/-- `maybeGunzip(buf, contentEncoding, contentType)`: when the declared
encoding or type mentions gzip, attempt decompression and fall back to
the original buffer when it throws; otherwise pass the buffer through. -/
def maybeGunzip (gunzip : List Nat → Option (List Nat)) (buf : List Nat)
    (contentEncoding contentType : Option String) : List Nat :=
  let enc := toLowerStr (contentEncoding.getD "")
  let ct := toLowerStr (contentType.getD "")
  if containsStr enc "gzip" || containsStr ct "gzip" || containsStr ct "application/gzip" then
    match gunzip buf with
    | some out => out
    | none => buf
  else buf

/-- The failures `downloadHFFileAsBuffer` can raise: a total fetch
failure, or an invalid-parquet buffer (the error message interpolates
the response metadata and a preview of the rejected buffer, both
carried here; the LFS-pointer and HTML hints are functions of them). -/
inductive ImportFileError
  | fetchFailed (attempts : List HFDownloadAttempt)
  | invalidParquet (res : HFOk) (buf : List Nat)
deriving Repr, DecidableEq

/-- `downloadHFFileAsBuffer(...)`: fetch, maybe gunzip, and (when a
parquet is expected) validate the resulting buffer against the `PAR1`
magic. -/
def downloadHFFileAsBuffer (net : String → Bool → NetResponse)
    (gunzip : List Nat → Option (List Nat))
    (rawToken repoId revision filePath : String) (repoType : HFRepoType)
    (expectParquet : Bool) : Except ImportFileError (List Nat) :=
  match downloadHFFile net rawToken repoId revision filePath repoType with
  | .error attempts => .error (.fetchFailed attempts)
  | .ok out =>
    let buf := maybeGunzip gunzip out.buf out.contentEncoding out.contentType
    if expectParquet && !isParquetBuffer buf then
      .error (.invalidParquet out buf)
    else .ok buf

/-- `tryFetch` of `import-hf-parquet.mjs`: one request, throwing a
message with the status and a 200-character body preview on non-2xx. -/
def tryFetch000 (net : String → Bool → NetResponse) (url : String) (auth : Bool) :
    Except String (List Nat) :=
  let res := net url auth
  if res.ok then .ok res.body
  else .error ("HF download failed (" ++ toString res.status ++ " " ++ res.statusText
    ++ "): " ++ takeStr 200 res.bodyText)

/-- `tryRepoType` of `import-hf-parquet.mjs`: with a token, try the URL
authenticated and retry it unauthenticated when that throws. -/
def tryRepoType000 (net : String → Bool → NetResponse) (hasToken : Bool)
    (url : String) : Except String (List Nat) :=
  if hasToken then
    match tryFetch000 net url true with
    | .ok b => .ok b
    | .error _ => tryFetch000 net url false
  else tryFetch000 net url false

/-! ## Row extractor and import aggregator

Embeds the per-row loop of `main` in `import-hf-parquet.mjs`: caption
and image column picks, struct-field access, byte coercion, the optional
path-reference download, naming, unique-path allocation and the two
writes, with every row failure caught into the summary's error list.
Row values are a small model of the JS values Arrow hands back; the
`file-type` sniffer, the md5 digest and filesystem write faults are
oracles in `RowEnv`. -/

/-- A JS value as the row loop inspects it: `null`/`undefined`, a
string, a number, a byte buffer (`Buffer`/`Uint8Array`/`ArrayBuffer`),
a plain object, or a `Map`. -/
inductive JSValue
  | null
  | str (s : String)
  | num (n : Int)
  | bytes (b : List Nat)
  | obj (fields : List (String × JSValue))
  | map (fields : List (String × JSValue))

/-- JS truthiness of a `JSValue` (objects, maps and buffers are always
truthy; `''`, `0`, `null`/`undefined` are falsy). -/
def truthy : JSValue → Bool
  | .null => false
  | .str s => s != ""
  | .num n => n != 0
  | .bytes _ => true
  | .obj _ => true
  | .map _ => true

/-- First binding of a key in a field list, `null` when absent (models
both `undefined` property reads and `Map.get` misses). -/
def lookupField (fields : List (String × JSValue)) (key : String) : JSValue :=
  match fields.lookup key with
  | some v => v
  | none => .null

/-- `getStructField(val, key)`: `null` for falsy values, `val.get(key)`
for a `Map`, `val[key]` for objects (buffers carry none of the keys
the importer reads), `null` otherwise. -/
def getStructField (v : JSValue) (key : String) : JSValue :=
  if !truthy v then .null
  else match v with
    | .map fields => lookupField fields key
    | .obj fields => lookupField fields key
    | _ => .null

/-- Plain property access `v?.key` (no `Map` lookup: `imageValue.path`
on a `Map` is `undefined`). -/
def jsDot (v : JSValue) (key : String) : JSValue :=
  match v with
  | .obj fields => lookupField fields key
  | _ => .null

/-- The nullish-coalescing operator `??`. -/
def jsCoalesce (a b : JSValue) : JSValue :=
  match a with
  | .null => b
  | _ => a

/-- `String(v)` for the values the importer stringifies (column text and
path hints, which are strings in practice; buffer stringification is
elided as no claim depends on it). -/
def jsString : JSValue → String
  | .null => "null"
  | .str s => s
  | .num n => toString n
  | .bytes _ => ""
  | .obj _ => "[object Object]"
  | .map _ => "[object Map]"

/-- UTF-8 bytes of a string (for `Buffer.from(value, 'utf8')`). -/
def utf8Encode (s : String) : List Nat :=
  s.toList.foldr (fun c acc => utf8BytesOfCode c.toNat ++ acc) []

/-- `coerceToBuffer(value)` of `import-hf-parquet.mjs`: `null` for falsy
values, the bytes of a buffer-like value, the UTF-8 bytes of a string,
`null` otherwise. -/
def coerceToBuffer (v : JSValue) : Option (List Nat) :=
  if !truthy v then none
  else match v with
    | .bytes b => some b
    | .str s => some (utf8Encode s)
    | _ => none

/-- `pickCaptionColumn(row)`: the first non-nullish of `row.text`,
`row.caption`, stringified; `null` otherwise. -/
def pickCaptionColumn (row : List (String × JSValue)) : Option String :=
  match lookupField row "text" with
  | .null =>
    match lookupField row "caption" with
    | .null => none
    | v => some (jsString v)
  | v => some (jsString v)

/-- `pickImageColumn(row)`. -/
def pickImageColumn (row : List (String × JSValue)) : JSValue :=
  lookupField row "image"

/-- `path.posix.basename(p)`: strip trailing slashes, keep the final
segment (`/` for an all-slash path, `''` for the empty path). -/
def posixBasename (p : String) : String :=
  let cs := p.toList
  let stripped := (cs.reverse.dropWhile (fun c => c == '/')).reverse
  if stripped.isEmpty then (if cs.isEmpty then "" else "/")
  else String.mk (stripped.reverse.takeWhile (fun c => !(c == '/'))).reverse

/-- `s.replace(/\.[^/.]+$/, '')`: drop a final dot-extension made of at
least one character that is neither a dot nor a slash. -/
def stripLastExt (s : String) : String :=
  let rev := s.toList.reverse
  let ext := rev.takeWhile (fun c => !(c == '.' || c == '/'))
  let rest := rev.drop ext.length
  if ext.length > 0 && rest.headD ' ' == '.' then String.mk (rest.drop 1).reverse
  else s

/-- `path.posix.extname(bn)` on a basename: the text from the last dot
on, empty when there is no dot or the dot is the first character.  (On
the `..` corner this returns `.` where Node returns an empty string; the
caller immediately strips the dot and treats the empty remainder as
falsy, so the importer's behaviour is identical.) -/
def posixExtname (bn : String) : String :=
  let cs := bn.toList
  let ext := cs.reverse.takeWhile (fun c => !(c == '.'))
  if ext.length == cs.length then ""
  else if cs.length - ext.length - 1 == 0 then ""
  else String.mk ('.' :: ext.reverse)

/-- `ext.replace(/^\./, '')`. -/
def dropLeadingDot (s : String) : String :=
  match s.toList with
  | c :: rest => if c == '.' then String.mk rest else s
  | [] => s

/-- `getSidecarCaptionPath(imageAbsPath)`: same base name with a `.txt`
suffix. -/
def getSidecarCaptionPath (imageAbsPath : String) : String :=
  stripLastExt imageAbsPath ++ ".txt"

/-- The importer's command-line arguments relevant to the row loop
(`none` models an absent flag; `envToken` is `process.env.HF_TOKEN`,
empty when unset). -/
structure ImportArgs where
  repoId : Option String
  revision : Option String
  repoType : Option String
  hfToken : Option String
  envToken : String

/-- Truthiness of an optional string argument. -/
def truthyOptStr : Option String → Bool
  | some s => s != ""
  | none => false

/-- `args.hfToken || process.env.HF_TOKEN || ''`. -/
def argToken (a : ImportArgs) : String :=
  match a.hfToken with
  | some t => if t != "" then t else a.envToken
  | none => a.envToken

/-- `String(args.revision || 'main')`. -/
def argRevision (a : ImportArgs) : String :=
  match a.revision with
  | some r => if r != "" then r else "main"
  | none => "main"

/-- `String(args.repoType || 'auto')`. -/
def argRepoType (a : ImportArgs) : String :=
  match a.repoType with
  | some t => if t != "" then t else "auto"
  | none => "auto"

/-- `buildUrl(type)` of `import-hf-parquet.mjs` (the download query is
part of the single candidate URL). -/
def buildUrl000 (repoId rev fp : String) (isDatasets : Bool) : String :=
  (if isDatasets then
    "https://huggingface.co/datasets/" ++ repoId ++ "/resolve/" ++ rev ++ "/" ++ fp
  else
    "https://huggingface.co/" ++ repoId ++ "/resolve/" ++ rev ++ "/" ++ fp) ++ "?download=true"

/-- `downloadHFFileAsBuffer` of `import-hf-parquet.mjs`: sanitize the
token, build the single candidate URL per repo kind (datasets then
models under any other kind string), and fetch with the auth fallback of
`tryRepoType`. -/
def downloadHFFileAsBuffer000 (net : String → Bool → NetResponse)
    (token repoId revision filePath repoType : String) : Except String (List Nat) :=
  let cleanToken := sanitizeToken token
  let hasTok := cleanToken != ""
  let rev := encodeURIComponent (if revision == "" then "main" else revision)
  let fp := encodeHFPath filePath
  if repoType == "datasets" || repoType == "models" then
    tryRepoType000 net hasTok (buildUrl000 repoId rev fp (repoType == "datasets"))
  else
    match tryRepoType000 net hasTok (buildUrl000 repoId rev fp true) with
    | .ok b => .ok b
    | .error _ => tryRepoType000 net hasTok (buildUrl000 repoId rev fp false)

/-- The effectful context of one importer run: the network, the
`file-type` extension sniffer (`none` models a failed sniff), the md5
digest, a write-fault model for `fs.writeFileSync` taking the path and
the written bytes (`some msg` models a throw), and the command-line
arguments. -/
structure RowEnv where
  net : String → Bool → NetResponse
  inferExt : List Nat → Option String
  md5Hex : List Nat → String
  writeErr : String → List Nat → Option String
  args : ImportArgs

/-- The two non-error outcomes of a row. -/
inductive RowOutcome
  | imported
  | skippedRow
deriving Repr, DecidableEq

/-- The body of the row loop of `main` (the `try` block): caption pick,
image pick with skip on a falsy image value, byte extraction through the
embedded-bytes and path-reference routes, naming, unique-path
allocation, and the image and sidecar writes.  An error result models a
throw caught by the row's `catch` and carries the filesystem state at
the throw point (writes that already succeeded persist). -/
def processRow (env : RowEnv) (datasetDir : String) (fs : List String)
    (row : List (String × JSValue)) :
    Except (String × List String) (RowOutcome × List String) :=
  let caption := (pickCaptionColumn row).getD ""
  let imageValue := pickImageColumn row
  if !truthy imageValue then .ok (.skippedRow, fs)
  else
    let imageBytesValue :=
      jsCoalesce (jsCoalesce (getStructField imageValue "bytes")
        (getStructField imageValue "data")) .null
    let mb0 := coerceToBuffer imageBytesValue
    let imagePathInRepo := getStructField imageValue "path"
    let fetched : Except (String × List String) (Option (List Nat)) :=
      match mb0 with
      | some b => .ok (some b)
      | none =>
        if truthy imagePathInRepo && truthyOptStr env.args.repoId then
          match downloadHFFileAsBuffer000 env.net (argToken env.args)
              (jsString (.str (env.args.repoId.getD ""))) (argRevision env.args)
              (jsString imagePathInRepo) (argRepoType env.args) with
          | .ok b => .ok (some b)
          | .error m => .error (m, fs)
        else .ok none
    match fetched with
    | .error e => .error e
    | .ok none =>
      .error ("Could not extract image bytes from parquet row (expected image.bytes or image.path)", fs)
    | .ok (some imageBytes) =>
      let imagePathHint :=
        if truthy (jsDot imageValue "path") then jsString (jsDot imageValue "path") else ""
      let fromHint : String × String :=
        if imagePathHint != "" then
          let bn := posixBasename imagePathHint
          if bn != "" && bn != "." && bn != "/" then
            (stripLastExt bn,
             let ext := posixExtname bn
             if ext != "" then dropLeadingDot ext else "")
          else ("", "")
        else ("", "")
      let baseName := if fromHint.1 != "" then fromHint.1 else env.md5Hex imageBytes
      let extension :=
        if fromHint.2 != "" then fromHint.2
        else
          match env.inferExt imageBytes with
          | some e => if e != "" then e else "jpg"
          | none => "jpg"
      match uniquePath (fun p => fs.contains p) datasetDir baseName ("." ++ extension) with
      | .error m => .error (m, fs)
      | .ok absImagePath =>
        match env.writeErr absImagePath imageBytes with
        | some m => .error (m, fs)
        | none =>
          let fs1 := absImagePath :: fs
          match env.writeErr (getSidecarCaptionPath absImagePath) (utf8Encode caption) with
          | some m => .error (m, fs1)
          | none => .ok (.imported, getSidecarCaptionPath absImagePath :: fs1)

/-- The run summary `{imported, skipped, errors}`; error entries are
`(row, message)` pairs. -/
structure ImportSummary where
  imported : Nat
  skipped : Nat
  errors : List (Nat × String)
deriving Repr, DecidableEq

/-- The row loop of `main`: rows are processed sequentially starting at
row index 1, threading the filesystem state; each row contributes
exactly one of an import, a skip, or an error entry at its index, and
the loop never aborts. -/
def importLoop (env : RowEnv) (datasetDir : String) :
    Nat → List String → List (List (String × JSValue)) → ImportSummary × List String
  | _, fs, [] => (⟨0, 0, []⟩, fs)
  | i, fs, row :: rest =>
    match processRow env datasetDir fs row with
    | .ok (.imported, fs1) =>
      let r := importLoop env datasetDir (i + 1) fs1 rest
      (⟨r.1.imported + 1, r.1.skipped, r.1.errors⟩, r.2)
    | .ok (.skippedRow, fs1) =>
      let r := importLoop env datasetDir (i + 1) fs1 rest
      (⟨r.1.imported, r.1.skipped + 1, r.1.errors⟩, r.2)
    | .error (m, fs1) =>
      let r := importLoop env datasetDir (i + 1) fs1 rest
      (⟨r.1.imported, r.1.skipped, (i, m) :: r.1.errors⟩, r.2)

/-- The summary `main` prints after the loop over a decoded table. -/
def runImport (env : RowEnv) (datasetDir : String) (fs0 : List String)
    (rows : List (List (String × JSValue))) : ImportSummary :=
  (importLoop env datasetDir 1 fs0 rows).1

/-- Test fixture: an importer context with no network, no sniffed
extension, a constant digest, no write faults and no repo argument. -/
def rowEnvFix : RowEnv where
  net := fun _ _ => ⟨false, 404, "Not Found", [], "x", "", none, none, none⟩
  inferExt := fun _ => none
  md5Hex := fun _ => "d41d8cd98f00b204e9800998ecf8427e"
  writeErr := fun _ _ => none
  args := ⟨none, none, none, none, ""⟩

/-- Test fixture: the same importer context with a repo argument, so the
path-reference fallback is taken (and fails on this all-failing
network). -/
def rowEnvRepo : RowEnv :=
  { rowEnvFix with args := ⟨some "org/repo", none, none, none, ""⟩ }

/-- Test fixture: a network on which every request fails with 404, a
diagnostic header and a body. -/
def failNet : String → Bool → NetResponse :=
  fun _ _ => ⟨false, 404, "Not Found", [], "x", "", none, none, some "blocked"⟩

/-- Test fixture: a network whose requests succeed with a gzip content
encoding and a 3-byte body that is not a parquet buffer. -/
def gzipNet : String → Bool → NetResponse :=
  fun _ _ => ⟨true, 200, "OK", [1, 2, 3], "", "", none, some "gzip", none⟩

/-- Test fixture: a gunzip oracle decompressing the 3-byte fixture body
to the smallest valid parquet buffer. -/
def gzipOracle : List Nat → Option (List Nat) :=
  fun b => if b == [1, 2, 3] then some [80, 65, 82, 49, 80, 65, 82, 49] else none

/-- Test fixture: a network accepting only unauthenticated requests, the
response echoing nothing but a 200. -/
def noAuthNet : String → Bool → NetResponse :=
  fun _ auth =>
    if auth then ⟨false, 401, "Unauthorized", [], "denied", "", none, none, none⟩
    else ⟨true, 200, "OK", [7], "", "", none, none, none⟩

end AiToolkit

namespace AiToolkit

/-- C10 counterexample: the magic check accepts the 8-byte buffer whose
first byte is `0xD0` — `'ascii'` decoding clears bit 7, turning `0xD0`
into `P` — so the check does not return true only when the first 4 and
last 4 bytes are literally the ASCII marker `PAR1`. -/
theorem c10_counterexample :
    isParquetBuffer [208, 65, 82, 49, 80, 65, 82, 49] = true ∧
    List.take 4 [208, 65, 82, 49, 80, 65, 82, 49] ≠ PAR1 := by decide

/-- C10 amended: the parquet magic check rejects every buffer shorter
than 8 bytes, including the 4-byte buffer `PAR1` itself, and accepts
exactly the buffers of length at least 8 whose first 4 and last 4 bytes
decode to the marker `PAR1` under Node's `'ascii'` decoding, which
clears the high bit of each byte first. -/
theorem c10_parquet_magic_masked_characterisation (buf : List Nat) :
    isParquetBuffer PAR1 = false ∧
    (isParquetBuffer buf = true ↔
      8 ≤ buf.length ∧ asciiDecode (buf.take 4) = PAR1 ∧
        asciiDecode (buf.drop (buf.length - 4)) = PAR1) := by
  refine ⟨by decide, ?_⟩
  unfold isParquetBuffer
  split
  · simp only [Bool.false_eq_true, false_iff]
    omega
  · next h =>
    simp only [Bool.and_eq_true, beq_iff_eq]
    exact ⟨fun ⟨h1, h2⟩ => ⟨by omega, h1, h2⟩, fun ⟨_, h1, h2⟩ => ⟨h1, h2⟩⟩

/-- `splitRepoRevision` on a segment without `@` keeps the segment and
defaults the revision to `main`. -/
lemma splitRepoRevision_noAt (rwm : String) (h : containsChar rwm '@' = false) :
    splitRepoRevision rwm = (rwm, "main") := by
  unfold splitRepoRevision
  simp [h]

/-- `splitRepoRevision` on `repo@rev` with non-empty pieces returns the
pieces. -/
lemma splitRepoRevision_at (rp repo rev : String) (hat : containsChar rp '@' = true)
    (hsplit : splitStr '@' rp = [repo, rev]) (hrepo : repo ≠ "") (hrev : rev ≠ "") :
    splitRepoRevision rp = (repo, rev) := by
  unfold splitRepoRevision
  simp [hat, hsplit, hrepo, hrev]

/-- C3 counterexample: the bare shape and the `datasets`-prefixed shape
of the same resource parse to different `repoType`s (`auto` vs
`datasets`), so the four shapes do not all recover an identical
`(repoId, revision, filePath, repoKind)`. -/
theorem c3_counterexample :
    parseHFParquetPath "org/repo/a.parquet" =
      Except.ok ⟨"org/repo", "main", "a.parquet", HFRepoType.auto⟩ ∧
    parseHFParquetPath "datasets/org/repo/a.parquet" =
      Except.ok ⟨"org/repo", "main", "a.parquet", HFRepoType.datasets⟩ ∧
    HFRepoType.auto ≠ HFRepoType.datasets :=
  ⟨rfl, rfl, by decide⟩

/-- C3 amended: for the four supported input shapes referring to the same
resource, the parser recovers identical `repoId`, `revision` and
`filePath`, but the `repoKind` depends on the shape: `auto` for the bare
and `org/repo@rev` shapes, `datasets` for the `datasets`-prefixed shape,
and `models` for a plain resolve URL. -/
theorem c3_four_shapes_amended (org repo rp s0 : String) (srest : List String)
    (horg : org ≠ "datasets")
    (hs0r : s0 ≠ "resolve") (hs0b : s0 ≠ "blob")
    (hpq : trailsWith (toLowerStr (joinWith "/" (s0 :: srest))) ".parquet" = true)
    (hrepoAt : containsChar repo '@' = false)
    (hat : containsChar rp '@' = true)
    (hsplit : splitStr '@' rp = [repo, "main"])
    (hrepo : repo ≠ "") :
    partsParse (org :: repo :: s0 :: srest) =
      Except.ok ⟨org ++ "/" ++ repo, "main", joinWith "/" (s0 :: srest), .auto⟩ ∧
    partsParse (org :: rp :: s0 :: srest) =
      Except.ok ⟨org ++ "/" ++ repo, "main", joinWith "/" (s0 :: srest), .auto⟩ ∧
    partsParse ("datasets" :: org :: repo :: s0 :: srest) =
      Except.ok ⟨org ++ "/" ++ repo, "main", joinWith "/" (s0 :: srest), .datasets⟩ ∧
    partsParse (org :: repo :: "resolve" :: "main" :: s0 :: srest) =
      Except.ok ⟨org ++ "/" ++ repo, "main", joinWith "/" (s0 :: srest), .models⟩ := by
  have e1 : (org == "datasets") = false := beq_eq_false_iff_ne.mpr horg
  have e2 : (s0 == "resolve") = false := beq_eq_false_iff_ne.mpr hs0r
  have e3 : (s0 == "blob") = false := beq_eq_false_iff_ne.mpr hs0b
  refine ⟨?_, ?_, ?_, ?_⟩
  · simp only [partsParse, dsOffset, resolveBlobAt, List.length_cons, List.getD_cons_zero, List.getD_cons_succ,
      List.drop_succ_cons, List.drop_zero, e1, e2, e3, Bool.or_self, if_false,
      Bool.false_eq_true, splitRepoRevision_noAt repo hrepoAt, hpq, Bool.not_true]
    rw [if_neg (by omega), if_neg (by omega)]
  · simp only [partsParse, dsOffset, resolveBlobAt, List.length_cons, List.getD_cons_zero, List.getD_cons_succ,
      List.drop_succ_cons, List.drop_zero, e1, e2, e3, Bool.or_self, if_false,
      Bool.false_eq_true,
      splitRepoRevision_at rp repo "main" hat hsplit hrepo (by decide), hpq, Bool.not_true]
    rw [if_neg (by omega), if_neg (by omega)]
  · simp only [partsParse, dsOffset, resolveBlobAt, List.length_cons, List.getD_cons_zero, List.getD_cons_succ,
      List.drop_succ_cons, List.drop_zero, e2, e3, Bool.or_self, if_false, beq_self_eq_true,
      if_true, Bool.false_eq_true, splitRepoRevision_noAt repo hrepoAt, hpq, Bool.not_true]
    rw [if_neg (by omega), if_neg (by omega)]
  · have e5 : ("main" == "") = false := by decide
    simp only [partsParse, dsOffset, resolveBlobAt, List.length_cons, List.getD_cons_zero, List.getD_cons_succ,
      List.drop_succ_cons, List.drop_zero, e1, e5, if_false, Bool.false_eq_true, hpq,
      Bool.not_true, beq_self_eq_true, Bool.true_or, eq_self_iff_true, if_true]
    rw [if_neg (by omega), if_neg (by omega)]

/-- C3 witness: the amended four-shape theorem instantiated at a concrete
resource `org/repo`, revision `main`, file `a.parquet`. -/
theorem c3_four_shapes_amended_witness :
    partsParse ["org", "repo", "a.parquet"] =
      Except.ok ⟨"org/repo", "main", "a.parquet", .auto⟩ ∧
    partsParse ["org", "repo@main", "a.parquet"] =
      Except.ok ⟨"org/repo", "main", "a.parquet", .auto⟩ ∧
    partsParse ["datasets", "org", "repo", "a.parquet"] =
      Except.ok ⟨"org/repo", "main", "a.parquet", .datasets⟩ ∧
    partsParse ["org", "repo", "resolve", "main", "a.parquet"] =
      Except.ok ⟨"org/repo", "main", "a.parquet", .models⟩ :=
  c3_four_shapes_amended "org" "repo" "repo@main" "a.parquet" []
    (by decide) (by decide) (by decide) (by decide) (by decide) (by decide)
    (by decide) (by decide)

/-- A prefix match of a pattern that cannot contain the separator ignores
everything past that separator. -/
lemma leadsWithList_append_sep (pat t s : List Char) (hsep : '/' ∉ pat) :
    leadsWithList pat (t ++ '/' :: s) = leadsWithList pat t := by
  induction pat generalizing t with
  | nil => rfl
  | cons p ps ih =>
    cases t with
    | nil =>
      have hp : (p == '/') = false :=
        beq_eq_false_iff_ne.mpr fun h => hsep (h ▸ List.mem_cons_self p ps)
      simp [leadsWithList, hp]
    | cons c cs =>
      simp only [List.cons_append, leadsWithList, List.append_eq]
      rw [ih cs fun h => hsep (List.mem_cons_of_mem p h)]

/-- The `.parquet` suffix check only looks at the text after the last
`/`. -/
lemma trailsWith_lower_sep (x j : String) :
    trailsWith (toLowerStr (x ++ "/" ++ j)) ".parquet"
      = trailsWith (toLowerStr j) ".parquet" := by
  have hdata : (x ++ "/" ++ j).toList = x.toList ++ '/' :: j.toList := by
    show (x ++ "/" ++ j).data = x.data ++ '/' :: j.data
    rw [String.data_append, String.data_append, List.append_assoc]
    rfl
  have hlow : Char.toLower '/' = '/' := by decide
  unfold trailsWith toLowerStr
  rw [hdata]
  show leadsWithList _ ((x.toList ++ '/' :: j.toList).map Char.toLower).reverse
      = leadsWithList _ (j.toList.map Char.toLower).reverse
  rw [List.map_append, List.map_cons, hlow, List.reverse_append, List.reverse_cons,
    List.append_assoc, List.singleton_append]
  exact leadsWithList_append_sep _ _ _ (by decide)

/-- For a non-empty list, `getLastD` does not depend on the default. -/
lemma getLastD_cons_default (y a b : String) (ys : List String) :
    (y :: ys).getLastD a = (y :: ys).getLastD b := by
  rw [List.getLastD_cons, List.getLastD_cons]

/-- The `.parquet` suffix check on joined segments only looks at the last
segment. -/
lemma trailsWith_join_last (l : List String) (hl : l ≠ []) :
    trailsWith (toLowerStr (joinWith "/" l)) ".parquet"
      = trailsWith (toLowerStr (l.getLastD "")) ".parquet" := by
  induction l with
  | nil => exact absurd rfl hl
  | cons x xs ih =>
    cases xs with
    | nil => rfl
    | cons y ys =>
      have hjoin : joinWith "/" (x :: y :: ys) = x ++ "/" ++ joinWith "/" (y :: ys) := rfl
      have hgl : (x :: y :: ys).getLastD "" = (y :: ys).getLastD "" :=
        (List.getLastD_cons "" x (y :: ys)).trans (getLastD_cons_default y x "" ys)
      rw [hjoin, trailsWith_lower_sep, ih (by simp), hgl]

/-- `getLastD` is unchanged by dropping fewer elements than the length. -/
lemma getLastD_drop (l : List String) (n : Nat) (hn : n < l.length) (d : String) :
    (l.drop n).getLastD d = l.getLastD d := by
  induction l generalizing n with
  | nil => simp at hn
  | cons x xs ih =>
    cases n with
    | zero => rfl
    | succ m =>
      have hm : m < xs.length := by simpa using hn
      rw [List.drop_succ_cons, ih m hm]
      obtain ⟨y, ys, rfl⟩ : ∃ a l, xs = a :: l := by
        cases xs with
        | nil => simp at hm
        | cons a l => exact ⟨a, l, rfl⟩
      exact ((List.getLastD_cons d x (y :: ys)).trans (getLastD_cons_default y x d ys)).symm

/-- Exact failure characterisation of `partsParse`. -/
lemma partsParse_err_iff (parts : List String) :
    isErrE (partsParse parts) = true ↔
      parts.length < 3 ∨
      (resolveBlobAt parts = true ∧ parts.length < dsOffset parts + 5) ∨
      (resolveBlobAt parts = false ∧ parts.length < dsOffset parts + 3) ∨
      trailsWith (toLowerStr (parts.getLastD "")) ".parquet" = false := by
  have hoff : dsOffset parts ≤ 1 := by
    unfold dsOffset
    split <;> omega
  unfold partsParse
  split
  · next h => simp [isErrE, h]
  · next h =>
    dsimp only
    split
    · next hrb =>
      split
      · next hlen =>
        exact iff_of_true rfl (Or.inr (Or.inl ⟨hrb, hlen⟩))
      · next hlen =>
        have hd : parts.drop (dsOffset parts + 4) ≠ [] := by
          intro hemp
          have := List.drop_eq_nil_iff.mp hemp
          omega
        have hjl := trailsWith_join_last (parts.drop (dsOffset parts + 4)) hd
        have hgd := getLastD_drop parts (dsOffset parts + 4) (by omega) ""
        rw [hjl, hgd]
        split
        · next hs =>
          have hs' : trailsWith (toLowerStr (parts.getLastD "")) ".parquet" = false := by
            revert hs
            cases trailsWith (toLowerStr (parts.getLastD "")) ".parquet" <;> simp
          exact iff_of_true rfl (Or.inr (Or.inr (Or.inr hs')))
        · next hs =>
          have hs' : trailsWith (toLowerStr (parts.getLastD "")) ".parquet" = true := by
            revert hs
            cases trailsWith (toLowerStr (parts.getLastD "")) ".parquet" <;> simp
          refine iff_of_false (by simp [isErrE]) ?_
          rintro (h1 | ⟨h1, h2⟩ | ⟨h1, h2⟩ | h1)
          · omega
          · omega
          · rw [hrb] at h1
            cases h1
          · rw [hs'] at h1
            cases h1
    · next hrbn =>
      have hrb : resolveBlobAt parts = false := by
        revert hrbn
        cases resolveBlobAt parts <;> simp
      split
      · next hlen =>
        exact iff_of_true rfl (Or.inr (Or.inr (Or.inl ⟨hrb, hlen⟩)))
      · next hlen =>
        have hd : parts.drop (dsOffset parts + 2) ≠ [] := by
          intro hemp
          have := List.drop_eq_nil_iff.mp hemp
          omega
        have hjl := trailsWith_join_last (parts.drop (dsOffset parts + 2)) hd
        have hgd := getLastD_drop parts (dsOffset parts + 2) (by omega) ""
        rw [hjl, hgd]
        split
        · next hs =>
          have hs' : trailsWith (toLowerStr (parts.getLastD "")) ".parquet" = false := by
            revert hs
            cases trailsWith (toLowerStr (parts.getLastD "")) ".parquet" <;> simp
          exact iff_of_true rfl (Or.inr (Or.inr (Or.inr hs')))
        · next hs =>
          have hs' : trailsWith (toLowerStr (parts.getLastD "")) ".parquet" = true := by
            revert hs
            cases trailsWith (toLowerStr (parts.getLastD "")) ".parquet" <;> simp
          refine iff_of_false (by simp [isErrE]) ?_
          rintro (h1 | ⟨h1, h2⟩ | ⟨h1, h2⟩ | h1)
          · omega
          · rw [hrb] at h1
            cases h1
          · omega
          · rw [hs'] at h1
            cases h1

/-- C8 counterexample: `org/repo/resolve/a.parquet` keeps 4 segments
after host stripping and its trailing segment ends with `.parquet`, yet
the parser fails (with the malformed-URL error), so failure is not
limited to the two conditions the claim names. -/
theorem c8_counterexample :
    (hfParts "org/repo/resolve/a.parquet").length = 4 ∧
    trailsWith (toLowerStr ((hfParts "org/repo/resolve/a.parquet").getLastD ""))
      ".parquet" = true ∧
    parseHFParquetPath "org/repo/resolve/a.parquet" = Except.error invalidUrlMsg :=
  ⟨rfl, rfl, rfl⟩

/-- C8 amended: the parser fails exactly when, after trimming, stripping
the known host prefix and splitting on `/` (dropping empty segments),
fewer than 3 segments remain, or a `resolve`/`blob` literal sits at the
expected position but fewer than `offset + 5` segments exist, or (in the
bare shape) fewer than `offset + 3` segments exist past the `datasets`
offset, or the trailing segment (lowercased) does not end in `.parquet`;
on every other input it returns a structured reference. -/
theorem c8_failure_characterisation_amended (input : String) :
    isErrE (parseHFParquetPath input) = true ↔
      (hfParts input).length < 3 ∨
      (resolveBlobAt (hfParts input) = true ∧
        (hfParts input).length < dsOffset (hfParts input) + 5) ∨
      (resolveBlobAt (hfParts input) = false ∧
        (hfParts input).length < dsOffset (hfParts input) + 3) ∨
      trailsWith (toLowerStr ((hfParts input).getLastD "")) ".parquet" = false :=
  partsParse_err_iff (hfParts input)

/-- The retry loop returns the first non-existing suffixed candidate at
or after index `i`, and the no-unique-name error only once the remaining
attempts are exhausted. -/
lemma uniquePathLoop_eq (ex : String → Bool) (dir b e : String) (i fuel : Nat) :
    uniquePathLoop ex dir b e i fuel =
      match (List.range' i fuel).find?
          (fun j => !ex (suffixedCandidate dir b e j)) with
      | some j => .ok (suffixedCandidate dir b e j)
      | none => .error noUniqueNameMsg := by
  induction fuel generalizing i with
  | zero => rfl
  | succ m ih =>
    show (if ex (suffixedCandidate dir b e i) = true
        then uniquePathLoop ex dir b e (i + 1) m
        else Except.ok (suffixedCandidate dir b e i)) = _
    rw [List.range'_succ]
    cases hex : ex (suffixedCandidate dir b e i) with
    | false =>
      rw [if_neg (by simp [hex]), List.find?_cons_of_pos _ (by simp [hex])]
    | true =>
      rw [if_pos (by simp [hex]), List.find?_cons_of_neg _ (by simp [hex]), ih (i + 1)]

/-- An allocated path never exists in the filesystem oracle. -/
lemma uniquePath_ok_not_exists (ex : String → Bool) (dir b e p : String)
    (h : uniquePath ex dir b e = .ok p) : ex p = false := by
  simp only [uniquePath] at h
  generalize hE : sanitizeFileName (if leadsWith "." e = true then e else "." ++ e) = E at h
  split at h
  · rw [uniquePathLoop_eq] at h
    cases hf : (List.range' 1 9999).find?
        (fun j => !ex (suffixedCandidate dir (sanitizeFileName b) E j)) with
    | none =>
      rw [hf] at h
      cases h
    | some j =>
      rw [hf] at h
      cases h
      have := List.find?_some hf
      revert this
      cases ex (suffixedCandidate dir (sanitizeFileName b) E j) <;> simp
  · next hne =>
    cases h
    revert hne
    cases ex (pathJoin dir (sanitizeFileName b ++ E)) <;> simp

/-- C7: `uniquePath` returns the unsuffixed sanitized path when it does
not exist, otherwise the first `base_i.ext` (i counting up from 1) that
does not exist, and raises the no-unique-name error only once all 9999
suffix attempts are exhausted; consequently a second allocation performed
after the first allocated path comes into existence never returns the
same path. -/
theorem c7_uniquePath_allocation (ex : String → Bool) (dir baseName extensionWithDot : String) :
    (uniquePath ex dir baseName extensionWithDot =
      (let safeBase := sanitizeFileName baseName
       let safeExt := sanitizeFileName
         (if leadsWith "." extensionWithDot then extensionWithDot
          else "." ++ extensionWithDot)
       if ex (pathJoin dir (safeBase ++ safeExt)) then
         match (List.range' 1 9999).find?
             (fun i => !ex (suffixedCandidate dir safeBase safeExt i)) with
         | some i => .ok (suffixedCandidate dir safeBase safeExt i)
         | none => .error noUniqueNameMsg
       else .ok (pathJoin dir (safeBase ++ safeExt)))) ∧
    (∀ p q, uniquePath ex dir baseName extensionWithDot = .ok p →
      uniquePath (fun u => ex u || u == p) dir baseName extensionWithDot = .ok q →
      q ≠ p) := by
  constructor
  · simp only [uniquePath]
    generalize sanitizeFileName
      (if leadsWith "." extensionWithDot = true then extensionWithDot
       else "." ++ extensionWithDot) = E
    split
    · rw [uniquePathLoop_eq]
    · rfl
  · intro p q _hp hq
    have hq' := uniquePath_ok_not_exists _ dir baseName extensionWithDot q hq
    intro hqp
    rw [hqp] at hq'
    simp at hq'

/-- On total failure, the attempt `tryWithFallbackAuth` hands back is
the final re-fetch of the last candidate (forced-download) URL. -/
lemma tryWithFallbackAuth_err (net : String → Bool → NetResponse) (tok : Bool)
    (url : String) (e : HFErr) (h : tryWithFallbackAuth net tok url = .err e) :
    HFDownloadAttempt.err e = tryFetch net (withDownloadQuery url) tok := by
  unfold tryWithFallbackAuth at h
  cases tok with
  | true =>
    rw [if_pos rfl] at h
    dsimp only at h
    split at h
    · next h1 =>
      rw [h] at h1
      simp [isOkAttempt] at h1
    · split at h
      · next h2 =>
        rw [h] at h2
        simp [isOkAttempt] at h2
      · split at h
        · next h3 =>
          rw [h] at h3
          simp [isOkAttempt] at h3
        · split at h
          · next h4 =>
            rw [h] at h4
            simp [isOkAttempt] at h4
          · exact h.symm
  | false =>
    rw [if_neg (by decide)] at h
    dsimp only at h
    split at h
    · next h1 =>
      rw [h] at h1
      simp [isOkAttempt] at h1
    · split at h
      · next h2 =>
        rw [h] at h2
        simp [isOkAttempt] at h2
      · exact h.symm

/-- C6: with a sanitized non-empty token, the fetcher tries each
candidate URL authenticated first and retries the identical URL
unauthenticated before advancing to the next candidate, returning the
first success (and, failing everything, the final re-fetch of the last
candidate); the standalone importer's `tryRepoType` likewise retries its
single URL unauthenticated when the authenticated request throws. -/
theorem c6_auth_then_unauth_per_candidate (net : String → Bool → NetResponse)
    (url : String) (hasToken : Bool) (h : hasToken = true) :
    tryWithFallbackAuth net hasToken url =
      (([tryFetch net url true, tryFetch net url false,
         tryFetch net (withDownloadQuery url) true,
         tryFetch net (withDownloadQuery url) false].find? isOkAttempt).getD
        (tryFetch net (withDownloadQuery url) true)) ∧
    tryRepoType000 net hasToken url =
      (if isErrE (tryFetch000 net url true) then tryFetch000 net url false
       else tryFetch000 net url true) := by
  subst h
  constructor
  · unfold tryWithFallbackAuth
    rw [if_pos rfl]
    cases h1 : isOkAttempt (tryFetch net url true) <;>
      cases h2 : isOkAttempt (tryFetch net url false) <;>
        cases h3 : isOkAttempt (tryFetch net (withDownloadQuery url) true) <;>
          cases h4 : isOkAttempt (tryFetch net (withDownloadQuery url) false) <;>
            simp [List.find?, h1, h2, h3, h4]
  · unfold tryRepoType000
    rw [if_pos rfl]
    cases hf : tryFetch000 net url true with
    | ok b => simp [hf, isErrE]
    | error m => simp [hf, isErrE]

/-- C6 witness: against a network that rejects authenticated requests
and accepts unauthenticated ones, the fallback returns the
unauthenticated success of the first candidate, matching the first-ok
characterisation. -/
theorem c6_auth_then_unauth_per_candidate_witness :
    tryWithFallbackAuth noAuthNet true "https://h/x" =
      (([tryFetch noAuthNet "https://h/x" true, tryFetch noAuthNet "https://h/x" false,
         tryFetch noAuthNet (withDownloadQuery "https://h/x") true,
         tryFetch noAuthNet (withDownloadQuery "https://h/x") false].find? isOkAttempt).getD
        (tryFetch noAuthNet (withDownloadQuery "https://h/x") true)) ∧
    tryRepoType000 noAuthNet true "https://h/x" =
      (if isErrE (tryFetch000 noAuthNet "https://h/x" true)
       then tryFetch000 noAuthNet "https://h/x" false
       else tryFetch000 noAuthNet "https://h/x" true) :=
  c6_auth_then_unauth_per_candidate noAuthNet "https://h/x" true rfl

/-- C4 counterexample: on a network where every request fails, the
datasets-kind fetch attempts the canonical URL and the forced-download
URL (the latter twice), but the raised error carries only the
forced-download URL — the canonical URL is attempted yet absent, so the
error does not carry every attempted URL. -/
theorem c4_counterexample :
    downloadHFFileTrace failNet "" "org/repo" "main" "a.parquet" .datasets =
      [("https://huggingface.co/datasets/org/repo/resolve/main/a.parquet", false),
       ("https://huggingface.co/datasets/org/repo/resolve/main/a.parquet?download=true", false),
       ("https://huggingface.co/datasets/org/repo/resolve/main/a.parquet?download=true", false)] ∧
    downloadHFFile failNet "" "org/repo" "main" "a.parquet" .datasets =
      .error [.err ⟨404, "Not Found",
        "https://huggingface.co/datasets/org/repo/resolve/main/a.parquet?download=true",
        "blocked", "x"⟩] ∧
    ("https://huggingface.co/datasets/org/repo/resolve/main/a.parquet" : String) ≠
      "https://huggingface.co/datasets/org/repo/resolve/main/a.parquet?download=true" :=
  ⟨rfl, rfl, by decide⟩

/-- C4 amended: when the fetch fails entirely, the raised error carries,
for each repoKind tried, only the final attempt on that kind's
forced-download URL — together with that attempt's status, diagnostic
header and body preview (it is a `tryFetch` result) — not every URL
attempted during the fetch. -/
theorem c4_error_payload_amended (net : String → Bool → NetResponse)
    (rawToken repoId revision filePath : String) :
    (∀ l, downloadHFFile net rawToken repoId revision filePath .datasets = .error l →
      l = [tryFetch net (withDownloadQuery (buildHFUrl repoId
            (encodeURIComponent (if revision == "" then "main" else revision))
            (encodeHFPath filePath) true)) (sanitizeToken rawToken != "")]) ∧
    (∀ l, downloadHFFile net rawToken repoId revision filePath .models = .error l →
      l = [tryFetch net (withDownloadQuery (buildHFUrl repoId
            (encodeURIComponent (if revision == "" then "main" else revision))
            (encodeHFPath filePath) false)) (sanitizeToken rawToken != "")]) ∧
    (∀ l, downloadHFFile net rawToken repoId revision filePath .auto = .error l →
      l = [tryFetch net (withDownloadQuery (buildHFUrl repoId
            (encodeURIComponent (if revision == "" then "main" else revision))
            (encodeHFPath filePath) true)) (sanitizeToken rawToken != ""),
           tryFetch net (withDownloadQuery (buildHFUrl repoId
            (encodeURIComponent (if revision == "" then "main" else revision))
            (encodeHFPath filePath) false)) (sanitizeToken rawToken != "")]) := by
  refine ⟨?_, ?_, ?_⟩
  · intro l h
    unfold downloadHFFile at h
    dsimp only at h
    rw [if_pos (by decide)] at h
    split at h
    · cases h
    · next e hA =>
      cases h
      rw [List.cons.injEq]
      exact ⟨tryWithFallbackAuth_err net _ _ e hA, rfl⟩
  · intro l h
    unfold downloadHFFile at h
    dsimp only at h
    rw [if_pos (by decide)] at h
    split at h
    · cases h
    · next e hA =>
      cases h
      rw [List.cons.injEq]
      exact ⟨tryWithFallbackAuth_err net _ _ e hA, rfl⟩
  · intro l h
    unfold downloadHFFile at h
    dsimp only at h
    rw [if_neg (by decide)] at h
    split at h
    · cases h
    · next e1 hA =>
      split at h
      · cases h
      · next e2 hB =>
        cases h
        rw [List.cons.injEq, List.cons.injEq]
        exact ⟨tryWithFallbackAuth_err net _ _ e1 hA,
               tryWithFallbackAuth_err net _ _ e2 hB, rfl⟩

/-- C4 witness: the amended payload equation evaluated on the
all-failing network at the datasets kind. -/
theorem c4_error_payload_amended_witness :
    [HFDownloadAttempt.err ⟨404, "Not Found",
      "https://huggingface.co/datasets/org/repo/resolve/main/a.parquet?download=true",
      "blocked", "x"⟩] =
    [tryFetch failNet (withDownloadQuery (buildHFUrl "org/repo"
      (encodeURIComponent (if "main" == "" then "main" else "main"))
      (encodeHFPath "a.parquet") true)) (sanitizeToken "" != "")] :=
  (c4_error_payload_amended failNet "" "org/repo" "main" "a.parquet").1
    [HFDownloadAttempt.err ⟨404, "Not Found",
      "https://huggingface.co/datasets/org/repo/resolve/main/a.parquet?download=true",
      "blocked", "x"⟩] rfl

/-- C5: for a fetched response whose declared content encoding or type
indicates gzip, successful decompression puts the decompressed bytes
through the `PAR1` magic check (so a buffer failing the check before
decompression but passing after it validates successfully), while a
decompression failure passes the original bytes through unchanged to
validation. -/
theorem c5_gunzip_then_validate (net : String → Bool → NetResponse)
    (gunzip : List Nat → Option (List Nat))
    (rawToken repoId revision filePath : String) (repoType : HFRepoType) (out : HFOk)
    (hdl : downloadHFFile net rawToken repoId revision filePath repoType = .ok out)
    (hgz : (containsStr (toLowerStr (out.contentEncoding.getD "")) "gzip" ||
            containsStr (toLowerStr (out.contentType.getD "")) "gzip" ||
            containsStr (toLowerStr (out.contentType.getD "")) "application/gzip") = true) :
    (∀ g, gunzip out.buf = some g →
      downloadHFFileAsBuffer net gunzip rawToken repoId revision filePath repoType true =
        (if isParquetBuffer g then .ok g else .error (.invalidParquet out g))) ∧
    (gunzip out.buf = none →
      downloadHFFileAsBuffer net gunzip rawToken repoId revision filePath repoType true =
        (if isParquetBuffer out.buf then .ok out.buf
         else .error (.invalidParquet out out.buf))) := by
  constructor
  · intro g hg
    unfold downloadHFFileAsBuffer
    rw [hdl]
    dsimp only
    unfold maybeGunzip
    dsimp only
    rw [if_pos hgz, hg]
    cases hp : isParquetBuffer g <;> simp [hp]
  · intro hg
    unfold downloadHFFileAsBuffer
    rw [hdl]
    dsimp only
    unfold maybeGunzip
    dsimp only
    rw [if_pos hgz, hg]
    cases hp : isParquetBuffer out.buf <;> simp [hp]

/-- C5 witness: the gzip fixture's 3-byte body fails the magic check,
its decompression is the smallest valid parquet buffer, and the download
succeeds with the decompressed bytes. -/
theorem c5_gunzip_then_validate_witness :
    isParquetBuffer [1, 2, 3] = false ∧
    isParquetBuffer [80, 65, 82, 49, 80, 65, 82, 49] = true ∧
    downloadHFFileAsBuffer gzipNet gzipOracle "" "o/r" "main" "a.parquet" .datasets true =
      .ok [80, 65, 82, 49, 80, 65, 82, 49] := by
  refine ⟨by decide, by decide, ?_⟩
  have h := (c5_gunzip_then_validate gzipNet gzipOracle "" "o/r" "main" "a.parquet"
    .datasets ⟨[1, 2, 3], 200, "OK",
      "https://huggingface.co/datasets/o/r/resolve/main/a.parquet",
      "https://huggingface.co/datasets/o/r/resolve/main/a.parquet",
      none, some "gzip"⟩ rfl (by decide)).1
    [80, 65, 82, 49, 80, 65, 82, 49] rfl
  simpa using h

/-- C7 witness: in a fresh directory, the first allocation of `(b, .png)`
is the unsuffixed `d/b.png`; once that path exists, the second allocation
is `d/b_1.png`, distinct from the first. -/
theorem c7_uniquePath_allocation_witness :
    uniquePath (fun _ => false) "d" "b" ".png" = .ok "d/b.png" ∧
    uniquePath (fun u => (fun _ => false) u || u == "d/b.png") "d" "b" ".png" =
      .ok "d/b_1.png" ∧
    ("d/b_1.png" : String) ≠ "d/b.png" := by
  refine ⟨rfl, rfl, ?_⟩
  have h := (c7_uniquePath_allocation (fun _ => false) "d" "b" ".png").2
    "d/b.png" "d/b_1.png" rfl rfl
  exact h

/-- Every row contributes exactly one of an import, a skip or an error
entry, so the summary accounts for all rows. -/
lemma importLoop_total (env : RowEnv) (dd : String)
    (rows : List (List (String × JSValue))) :
    ∀ (i : Nat) (fs : List String),
      (importLoop env dd i fs rows).1.imported + (importLoop env dd i fs rows).1.skipped +
        (importLoop env dd i fs rows).1.errors.length = rows.length := by
  induction rows with
  | nil => intro i fs; rfl
  | cons row rest ih =>
    intro i fs
    have hr := ih (i + 1)
    cases hp : processRow env dd fs row with
    | ok x =>
      obtain ⟨o, fs1⟩ := x
      cases o with
      | imported =>
        have := hr fs1
        simp only [importLoop, hp, List.length_cons]
        omega
      | skippedRow =>
        have := hr fs1
        simp only [importLoop, hp, List.length_cons]
        omega
    | error pe =>
      obtain ⟨m, fs1⟩ := pe
      have := hr fs1
      simp only [importLoop, hp, List.length_cons]
      omega

/-- Error entries carry indices inside the processed index range. -/
lemma importLoop_err_bounds (env : RowEnv) (dd : String)
    (rows : List (List (String × JSValue))) :
    ∀ (i : Nat) (fs : List String) (e : Nat × String),
      e ∈ (importLoop env dd i fs rows).1.errors → i ≤ e.1 ∧ e.1 < i + rows.length := by
  induction rows with
  | nil => intro i fs e he; cases he
  | cons row rest ih =>
    intro i fs e he
    cases hp : processRow env dd fs row with
    | ok x =>
      obtain ⟨o, fs1⟩ := x
      simp only [importLoop, hp] at he
      cases o with
      | imported =>
        have := ih (i + 1) fs1 e he
        simp only [List.length_cons]
        omega
      | skippedRow =>
        have := ih (i + 1) fs1 e he
        simp only [List.length_cons]
        omega
    | error pe =>
      obtain ⟨m, fs1⟩ := pe
      simp only [importLoop, hp, List.mem_cons] at he
      rcases he with he | he
      · subst he
        simp only [List.length_cons]
        omega
      · have := ih (i + 1) fs1 e he
        simp only [List.length_cons]
        omega

/-- Error entries appear in strictly increasing row-index order. -/
lemma importLoop_err_sorted (env : RowEnv) (dd : String)
    (rows : List (List (String × JSValue))) :
    ∀ (i : Nat) (fs : List String),
      List.Pairwise (fun a b : Nat × String => a.1 < b.1)
        (importLoop env dd i fs rows).1.errors := by
  induction rows with
  | nil => intro i fs; exact List.Pairwise.nil
  | cons row rest ih =>
    intro i fs
    cases hp : processRow env dd fs row with
    | ok x =>
      obtain ⟨o, fs1⟩ := x
      cases o with
      | imported =>
        simp only [importLoop, hp]
        exact ih (i + 1) fs1
      | skippedRow =>
        simp only [importLoop, hp]
        exact ih (i + 1) fs1
    | error pe =>
      obtain ⟨m, fs1⟩ := pe
      simp only [importLoop, hp]
      refine List.Pairwise.cons ?_ (ih (i + 1) fs1)
      intro b hb
      have := importLoop_err_bounds env dd rest (i + 1) fs1 b hb
      omega

/-- The loop over a concatenation decomposes into the loop over the
prefix followed by the loop over the suffix, continuing from the
prefix's final index and filesystem state; counters add and error lists
concatenate. -/
lemma importLoop_append (env : RowEnv) (dd : String)
    (xs ys : List (List (String × JSValue))) :
    ∀ (i : Nat) (fs : List String),
      importLoop env dd i fs (xs ++ ys) =
        ((⟨(importLoop env dd i fs xs).1.imported +
             (importLoop env dd (i + xs.length) (importLoop env dd i fs xs).2 ys).1.imported,
           (importLoop env dd i fs xs).1.skipped +
             (importLoop env dd (i + xs.length) (importLoop env dd i fs xs).2 ys).1.skipped,
           (importLoop env dd i fs xs).1.errors ++
             (importLoop env dd (i + xs.length) (importLoop env dd i fs xs).2 ys).1.errors⟩ :
          ImportSummary),
         (importLoop env dd (i + xs.length) (importLoop env dd i fs xs).2 ys).2) := by
  induction xs with
  | nil =>
    intro i fs
    simp only [List.nil_append, importLoop, List.length_nil, Nat.add_zero, Nat.zero_add]
  | cons row rest ih =>
    intro i fs
    cases hp : processRow env dd fs row with
    | ok x =>
      obtain ⟨o, fs1⟩ := x
      cases o with
      | imported =>
        simp only [List.cons_append, importLoop, hp, List.length_cons,
          ih (i + 1) fs1, List.append_eq]
        rw [show i + (rest.length + 1) = i + 1 + rest.length by omega]
        simp only [ImportSummary.mk.injEq, Prod.mk.injEq, List.cons_append, and_true,
          true_and]
        omega
      | skippedRow =>
        simp only [List.cons_append, importLoop, hp, List.length_cons,
          ih (i + 1) fs1, List.append_eq]
        rw [show i + (rest.length + 1) = i + 1 + rest.length by omega]
        simp only [ImportSummary.mk.injEq, Prod.mk.injEq, List.cons_append, and_true,
          true_and]
        omega
    | error pe =>
      obtain ⟨m, fs1⟩ := pe
      simp only [List.cons_append, importLoop, hp, List.length_cons,
        ih (i + 1) fs1, List.append_eq]
      rw [show i + (rest.length + 1) = i + 1 + rest.length by omega]

/-- C9: for every decoded table, the final summary satisfies
`imported + skipped + |errors| = number of rows`, every reported row
index lies in the 1-based range `[1, N]`, and the error list is in
strictly increasing row-index order. -/
theorem c9_summary_invariants (env : RowEnv) (dd : String) (fs0 : List String)
    (rows : List (List (String × JSValue))) :
    (runImport env dd fs0 rows).imported + (runImport env dd fs0 rows).skipped +
      (runImport env dd fs0 rows).errors.length = rows.length ∧
    (∀ e ∈ (runImport env dd fs0 rows).errors, 1 ≤ e.1 ∧ e.1 ≤ rows.length) ∧
    List.Pairwise (fun a b : Nat × String => a.1 < b.1) (runImport env dd fs0 rows).errors := by
  refine ⟨importLoop_total env dd rows 1 fs0, ?_, importLoop_err_sorted env dd rows 1 fs0⟩
  intro e he
  have := importLoop_err_bounds env dd rows 1 fs0 e he
  omega

/-- C1: when the processing of a row throws (in extraction or writing),
the summary for the whole table records `(rowIndex, message)` at that
row's 1-based index, the error lists of the preceding and following rows
surround it unchanged, and the summary still accounts for every row of
the table — no per-row failure aborts the run (the loop is a total
function; only the pre-loop reference/fetch/validation/decode stages can
fail the run). -/
theorem c1_per_row_failure_isolated (env : RowEnv) (dd : String) (fs0 : List String)
    (rows1 rows2 : List (List (String × JSValue))) (row : List (String × JSValue))
    (m : String) (fs1 : List String)
    (h : processRow env dd (importLoop env dd 1 fs0 rows1).2 row = .error (m, fs1)) :
    (runImport env dd fs0 (rows1 ++ row :: rows2)).errors =
      (runImport env dd fs0 rows1).errors ++
        (rows1.length + 1, m) :: (importLoop env dd (rows1.length + 2) fs1 rows2).1.errors ∧
    (runImport env dd fs0 (rows1 ++ row :: rows2)).imported +
      (runImport env dd fs0 (rows1 ++ row :: rows2)).skipped +
      (runImport env dd fs0 (rows1 ++ row :: rows2)).errors.length =
      rows1.length + 1 + rows2.length := by
  constructor
  · unfold runImport
    rw [importLoop_append env dd rows1 (row :: rows2) 1 fs0]
    dsimp only
    rw [show 1 + rows1.length = rows1.length + 1 by omega]
    simp only [importLoop, h]
  · have := importLoop_total env dd (rows1 ++ row :: rows2) 1 fs0
    unfold runImport
    simp only [List.length_append, List.length_cons] at this ⊢
    omega

/-- C1 witness: a first row with an empty image struct throws, its error
is recorded at row 1, and the following row (valid embedded bytes) is
still processed and imported. -/
theorem c1_per_row_failure_isolated_witness :
    (runImport rowEnvFix "d" []
        ([] ++ [("image", JSValue.obj [])] ::
          [[("image", JSValue.obj [("bytes", JSValue.bytes [1, 2, 3])])]])).errors =
      (runImport rowEnvFix "d" [] []).errors ++
        (List.length ([] : List (List (String × JSValue))) + 1,
          "Could not extract image bytes from parquet row (expected image.bytes or image.path)") ::
          (importLoop rowEnvFix "d" (List.length ([] : List (List (String × JSValue))) + 2) []
            [[("image", JSValue.obj [("bytes", JSValue.bytes [1, 2, 3])])]]).1.errors ∧
    (runImport rowEnvFix "d" []
        ([] ++ [("image", JSValue.obj [])] ::
          [[("image", JSValue.obj [("bytes", JSValue.bytes [1, 2, 3])])]])).imported +
      (runImport rowEnvFix "d" []
        ([] ++ [("image", JSValue.obj [])] ::
          [[("image", JSValue.obj [("bytes", JSValue.bytes [1, 2, 3])])]])).skipped +
      (runImport rowEnvFix "d" []
        ([] ++ [("image", JSValue.obj [])] ::
          [[("image", JSValue.obj [("bytes", JSValue.bytes [1, 2, 3])])]])).errors.length =
      List.length ([] : List (List (String × JSValue))) + 1 + 1 :=
  c1_per_row_failure_isolated rowEnvFix "d" [] []
    [[("image", JSValue.obj [("bytes", JSValue.bytes [1, 2, 3])])]]
    [("image", JSValue.obj [])]
    "Could not extract image bytes from parquet row (expected image.bytes or image.path)"
    [] rfl

/-- C2 counterexample: a row whose image value is a truthy struct with
neither embedded bytes under `bytes`/`data` nor a path reference yields
an Error entry, not a Skipped outcome: the summary has `skipped = 0` and
a row-1 error. -/
theorem c2_counterexample :
    coerceToBuffer (jsCoalesce (jsCoalesce (getStructField (JSValue.obj []) "bytes")
      (getStructField (JSValue.obj []) "data")) .null) = none ∧
    truthy (getStructField (JSValue.obj []) "path") = false ∧
    runImport rowEnvFix "d" [] [[("image", JSValue.obj [])]] =
      ⟨0, 0, [(1, "Could not extract image bytes from parquet row (expected image.bytes or image.path)")]⟩ :=
  ⟨rfl, rfl, rfl⟩

/-- C2 amended: a row whose image value is falsy (absent or null) is
Skipped and contributes no error; a row with a truthy image value from
which no bytes are obtainable — no coercible `bytes`/`data` payload and
the path fallback unavailable (no truthy path reference or no repo
argument) — throws the could-not-extract error attributed to that row,
not a skip; and when the fallback is available but the download throws,
the row errors with the download's message, again not a skip. -/
theorem c2_skip_vs_error_amended (env : RowEnv) (dd : String) (fs : List String)
    (row : List (String × JSValue)) :
    (truthy (pickImageColumn row) = false →
      processRow env dd fs row = .ok (.skippedRow, fs)) ∧
    (truthy (pickImageColumn row) = true →
      coerceToBuffer (jsCoalesce (jsCoalesce (getStructField (pickImageColumn row) "bytes")
        (getStructField (pickImageColumn row) "data")) .null) = none →
      (truthy (getStructField (pickImageColumn row) "path") = false ∨
        truthyOptStr env.args.repoId = false) →
      processRow env dd fs row =
        .error ("Could not extract image bytes from parquet row (expected image.bytes or image.path)", fs)) ∧
    (∀ msg, truthy (pickImageColumn row) = true →
      coerceToBuffer (jsCoalesce (jsCoalesce (getStructField (pickImageColumn row) "bytes")
        (getStructField (pickImageColumn row) "data")) .null) = none →
      truthy (getStructField (pickImageColumn row) "path") = true →
      truthyOptStr env.args.repoId = true →
      downloadHFFileAsBuffer000 env.net (argToken env.args)
        (jsString (.str (env.args.repoId.getD ""))) (argRevision env.args)
        (jsString (getStructField (pickImageColumn row) "path")) (argRepoType env.args) =
        .error msg →
      processRow env dd fs row = .error (msg, fs)) := by
  refine ⟨?_, ?_, ?_⟩
  · intro hiv
    unfold processRow
    dsimp only
    rw [hiv]
    rfl
  · intro hiv hcb hpath
    have hgate : (truthy (getStructField (pickImageColumn row) "path") &&
        truthyOptStr env.args.repoId) = false := by
      rcases hpath with hp | hp <;> simp [hp]
    unfold processRow
    dsimp only
    rw [hiv, hcb, hgate]
    rfl
  · intro msg hiv hcb hp hr hdl
    have hgate : (truthy (getStructField (pickImageColumn row) "path") &&
        truthyOptStr env.args.repoId) = true := by
      simp [hp, hr]
    unfold processRow
    dsimp only
    rw [hiv, hcb, hgate, hdl]
    rfl

/-- C2 witness: a row without an image column is Skipped; a row with an
empty image struct errors with the could-not-extract message; a row with
only a path reference, a repo argument present and a failing network
errors with the download's message. -/
theorem c2_skip_vs_error_amended_witness :
    processRow rowEnvFix "d" [] [] = .ok (.skippedRow, []) ∧
    processRow rowEnvFix "d" [] [("image", JSValue.obj [])] =
      .error ("Could not extract image bytes from parquet row (expected image.bytes or image.path)", []) ∧
    processRow rowEnvRepo "d" [] [("image", JSValue.obj [("path", JSValue.str "imgs/dog.png")])] =
      .error ("HF download failed (404 Not Found): x", []) :=
  ⟨(c2_skip_vs_error_amended rowEnvFix "d" [] []).1 rfl,
   (c2_skip_vs_error_amended rowEnvFix "d" [] [("image", JSValue.obj [])]).2.1 rfl rfl
     (Or.inl rfl),
   (c2_skip_vs_error_amended rowEnvRepo "d" []
       [("image", JSValue.obj [("path", JSValue.str "imgs/dog.png")])]).2.2
     "HF download failed (404 Not Found): x" rfl rfl rfl rfl rfl⟩

end AiToolkit
